import Mathlib

/-!
Verification of `hikmahealth/utils/misc.py`.

The Python module is shallowly embedded below.  Characters are modelled by
Lean `Char`; the Python predicates `str.isupper`, `str.islower`,
`str.isalnum` and the method `str.lower` are modelled by the corresponding
ASCII functions of Lean core (`Char.isUpper`, `Char.isLower`,
`Char.isAlphanum`, `Char.toLower`), which agree with Python on the ASCII
range that the utilities are used on.
-/

namespace HikmaMisc

/-- The underscore-insertion condition of `to_snake_case`: the current
character `c` is uppercase and either the previous character `prev` is
alphanumeric and not uppercase, or the next character (head of `rest`)
exists and is lowercase. -/
def snakeIns (prev c : Char) (rest : List Char) : Bool :=
  c.isUpper && ((prev.isAlphanum && !prev.isUpper) ||
    (match rest with
     | [] => false
     | n :: _ => n.isLower))

/-- One iteration step of the loop of `to_snake_case`.  The Python code
keeps the output list `result`; here `racc` is `result` reversed, `prev` is
`string[i - 1]` and the third argument the remaining characters
`string[i:]`. -/
def snakeLoop (racc : List Char) (prev : Char) : List Char → List Char
  | [] => racc
  | c :: rest =>
    let racc' : List Char :=
      if snakeIns prev c rest && !(racc.head? == some '_') then '_' :: racc
      else racc
    snakeLoop (c.toLower :: racc') c rest

/-- Embedding of `to_snake_case` (misc.py lines 37-61): empty input is
returned unchanged; otherwise the first character is lower-cased and the
remaining characters are scanned by `snakeLoop`. -/
def to_snake_case (s : String) : String :=
  match s.data with
  | [] => s
  | c :: rest => String.mk (snakeLoop [c.toLower] c rest).reverse

/-- Spec-side scan for claim C1, written from the words of the
specification: for each subsequent character an underscore is inserted
before it exactly when it is uppercase and either the previous character is
alphanumeric and not uppercase or the next character exists and is
lowercase, except never immediately after an underscore already at the end
of the output; every emitted character is lower-cased.  `out` is the output
built so far (in order), `prev` the previous source character. -/
def specSnakeLoop (out : List Char) (prev : Char) : List Char → List Char
  | [] => out
  | c :: rest =>
    let out' : List Char :=
      if snakeIns prev c rest && !(out.getLast? == some '_') then out ++ ['_']
      else out
    specSnakeLoop (out' ++ [c.toLower]) c rest

/-- The scan described by the specification sentence of claim C1. -/
def spec_to_snake_case (s : String) : String :=
  match s.data with
  | [] => s
  | c :: rest => String.mk (specSnakeLoop [c.toLower] c rest)

theorem snakeLoop_eq_spec (l : List Char) :
    ∀ (racc : List Char) (prev : Char),
      snakeLoop racc prev l = (specSnakeLoop racc.reverse prev l).reverse := by
  induction l with
  | nil => intro racc prev; simp [snakeLoop, specSnakeLoop]
  | cons c rest ih =>
    intro racc prev
    simp only [snakeLoop, specSnakeLoop]
    have hlast : racc.reverse.getLast? = racc.head? := by
      cases racc with
      | nil => simp
      | cons a as => simp [List.getLast?_concat]
    rw [hlast]
    cases hc : snakeIns prev c rest && !(racc.head? == some '_') with
    | true => simpa using ih (c.toLower :: '_' :: racc) c
    | false => simpa using ih (c.toLower :: racc) c

theorem isUpper_iff (c : Char) : c.isUpper = true ↔ 65 ≤ c.toNat ∧ c.toNat ≤ 90 := by
  rw [Char.isUpper]
  simp only [Bool.and_eq_true, decide_eq_true_eq]
  exact Iff.rfl

theorem toNat_toLower (c : Char) :
    c.toLower.toNat = if 65 ≤ c.toNat ∧ c.toNat ≤ 90 then c.toNat + 32 else c.toNat := by
  rw [Char.toLower]
  split
  next h =>
    have hvalid : (c.toNat + 32).isValidChar := by
      left
      omega
    rw [Char.ofNat, dif_pos hvalid]
    rfl
  next h => rfl

theorem toLower_isUpper (c : Char) : c.toLower.isUpper = false := by
  have h := toNat_toLower c
  by_cases hu : c.toLower.isUpper = true
  · exfalso
    have := (isUpper_iff c.toLower).mp hu
    split at h <;> omega
  · simpa using hu

theorem toLower_toLower (c : Char) : c.toLower.toLower = c.toLower := by
  have h := toNat_toLower c
  have hn : ¬(65 ≤ c.toLower.toNat ∧ c.toLower.toNat ≤ 90) := by
    split at h <;> omega
  rw [Char.toLower, if_neg hn]

/-- Every character ever appended by the loop of `to_snake_case` is an
underscore or the lower-casing of a source character; both are unaffected
by a further pass. -/
def SnakeChar (c : Char) : Prop := c.isUpper = false ∧ c.toLower = c

theorem snakeChar_toLower (c : Char) : SnakeChar c.toLower :=
  ⟨toLower_isUpper c, toLower_toLower c⟩

theorem snakeChar_underscore : SnakeChar '_' := by
  constructor <;> decide

theorem snakeLoop_chars (l : List Char) :
    ∀ (racc : List Char) (prev : Char), (∀ c ∈ racc, SnakeChar c) →
      ∀ c ∈ snakeLoop racc prev l, SnakeChar c := by
  induction l with
  | nil => intro racc prev h; simpa [snakeLoop] using h
  | cons c rest ih =>
    intro racc prev h
    rw [snakeLoop]
    apply ih
    intro d hd
    split at hd
    · simp only [List.mem_cons] at hd
      rcases hd with h1 | h1 | h1
      · exact h1 ▸ snakeChar_toLower c
      · exact h1 ▸ snakeChar_underscore
      · exact h d h1
    · simp only [List.mem_cons] at hd
      rcases hd with h1 | h1
      · exact h1 ▸ snakeChar_toLower c
      · exact h d h1

theorem snakeLoop_of_no_upper (l : List Char) :
    ∀ (racc : List Char) (prev : Char), (∀ c ∈ l, SnakeChar c) →
      snakeLoop racc prev l = l.reverse ++ racc := by
  induction l with
  | nil => intro racc prev _; simp [snakeLoop]
  | cons c rest ih =>
    intro racc prev h
    have hc : SnakeChar c := h c (by simp)
    have hins : snakeIns prev c rest = false := by
      simp [snakeIns, hc.1]
    rw [snakeLoop, hins]
    simp only [Bool.false_and, Bool.false_eq_true, if_false]
    rw [ih (c.toLower :: racc) c (fun d hd => h d (by simp [hd])), hc.2]
    simp

theorem to_snake_case_chars (s : String) :
    ∀ c ∈ (to_snake_case s).data, SnakeChar c := by
  obtain ⟨l⟩ := s
  cases l with
  | nil => intro c hc; exact absurd hc (by simp [to_snake_case])
  | cons c rest =>
    intro d hd
    have he : to_snake_case ⟨c :: rest⟩ =
        String.mk (snakeLoop [c.toLower] c rest).reverse := rfl
    rw [he] at hd
    apply snakeLoop_chars rest [c.toLower] c
    · intro e hmem
      simp at hmem
      exact hmem ▸ snakeChar_toLower c
    · simpa using hd

theorem to_snake_case_fixed (t : String) (h : ∀ c ∈ t.data, SnakeChar c) :
    to_snake_case t = t := by
  obtain ⟨l⟩ := t
  cases l with
  | nil => rfl
  | cons c rest =>
    have hc : SnakeChar c := h c (by simp)
    have he : to_snake_case ⟨c :: rest⟩ =
        String.mk (snakeLoop [c.toLower] c rest).reverse := rfl
    rw [he]
    rw [snakeLoop_of_no_upper rest [c.toLower] c (fun d hd => h d (by simp [hd])), hc.2]
    simp

/-- Model of the Python values the module manipulates: `None`, booleans,
integers, strings, lists, dictionaries (with string keys, the only kind the
module is applied to) and an opaque non-JSON-serializable object. -/
inductive PyVal where
  | none : PyVal
  | bool (b : Bool) : PyVal
  | int (n : Int) : PyVal
  | str (s : String) : PyVal
  | list (items : List PyVal) : PyVal
  | dict (entries : List (String × PyVal)) : PyVal
  | obj : PyVal

mutual

/-- Embedding of `convert_dict_keys_to_snake_case` (misc.py lines 83-89):
non-dictionaries are returned unchanged, dictionaries are rebuilt with
snake-cased keys and recursively converted values. -/
def convert_dict_keys_to_snake_case : PyVal → PyVal
  | .dict entries => .dict (convertEntries entries)
  | v => v

/-- The dictionary comprehension inside `convert_dict_keys_to_snake_case`. -/
def convertEntries : List (String × PyVal) → List (String × PyVal)
  | [] => []
  | (k, v) :: rest =>
    (to_snake_case k, convert_dict_keys_to_snake_case v) :: convertEntries rest

end

theorem convertEntries_eq_map (es : List (String × PyVal)) :
    convertEntries es =
      es.map (fun kv => (to_snake_case kv.1, convert_dict_keys_to_snake_case kv.2)) := by
  induction es with
  | nil => rfl
  | cons kv rest ih =>
    cases kv
    rw [convertEntries, ih]
    rfl

theorem conv_dict_eq_map (es : List (String × PyVal)) :
    convert_dict_keys_to_snake_case (.dict es) =
      .dict (es.map (fun kv => (to_snake_case kv.1, convert_dict_keys_to_snake_case kv.2))) := by
  rw [convert_dict_keys_to_snake_case, convertEntries_eq_map]

/-- Embedding of the `operator_map` dictionary literal of
`convert_operator` (misc.py lines 209-235). -/
def operator_map (case_insensitive : Bool) : List (String × String) :=
  [("contains", if case_insensitive then "ILIKE" else "LIKE"),
   ("does not contain", if case_insensitive then "NOT ILIKE" else "NOT LIKE"),
   ("is empty", "IS NULL"),
   ("is not empty", "IS NOT NULL"),
   ("=", "="),
   ("!=", "!="),
   ("<", "<"),
   (">", ">"),
   ("<=", "<="),
   (">=", ">=")]

/-- Embedding of `convert_operator`: dictionary lookup with the fallback
`ILIKE` (case-insensitive) or `=` (case-sensitive).  In Python the flag
defaults to `True`. -/
def convert_operator (operator : String) (case_insensitive : Bool) : String :=
  (((operator_map case_insensitive).lookup operator).getD
    (if case_insensitive then "ILIKE" else "="))

/-! ### Model of the Python `json` module

`json.loads` and `json.dumps` are standard-library functions used by
`safe_json_loads` and `safe_json_dumps`.  They are modelled below on the
JSON fragment the module manipulates: `null`, booleans, integers, strings,
arrays and objects.  Floating-point literals and the non-standard
`NaN`/`Infinity` extensions are outside the model (no claim involves
them). -/

/-- The left curly bracket character. -/
def leftBrace : Char := Char.ofNat 123

/-- The right curly bracket character. -/
def rightBrace : Char := Char.ofNat 125

/-- The whitespace characters accepted between JSON tokens. -/
def isJsonWs (c : Char) : Bool := c = ' ' || c = '\t' || c = '\n' || c = '\r'

/-- Skip JSON whitespace. -/
def skipWs (l : List Char) : List Char := l.dropWhile isJsonWs

/-- Value of a hexadecimal digit character. -/
def hexDigitVal (c : Char) : Option Nat :=
  if '0' ≤ c ∧ c ≤ '9' then some (c.toNat - 48)
  else if 'a' ≤ c ∧ c ≤ 'f' then some (c.toNat - 87)
  else if 'A' ≤ c ∧ c ≤ 'F' then some (c.toNat - 55)
  else Option.none

/-- Parse the body of a JSON string literal (after the opening quote),
returning the decoded characters and the input after the closing quote.
Handles the escape sequences of the JSON grammar; unescaped control
characters are rejected as in Python strict mode. -/
def parseStrBody : Nat → List Char → Option (List Char × List Char)
  | 0, _ => Option.none
  | _ + 1, [] => Option.none
  | fuel + 1, c :: rest =>
    if c = '"' then some ([], rest)
    else if c = '\\' then
      match rest with
      | [] => Option.none
      | e :: rest2 =>
        let esc : Option (Char × List Char) :=
          if e = '"' then some ('"', rest2)
          else if e = '\\' then some ('\\', rest2)
          else if e = '/' then some ('/', rest2)
          else if e = 'b' then some (Char.ofNat 8, rest2)
          else if e = 'f' then some (Char.ofNat 12, rest2)
          else if e = 'n' then some ('\n', rest2)
          else if e = 'r' then some ('\r', rest2)
          else if e = 't' then some ('\t', rest2)
          else if e = 'u' then
            match rest2 with
            | h1 :: h2 :: h3 :: h4 :: rest3 =>
              match hexDigitVal h1, hexDigitVal h2, hexDigitVal h3, hexDigitVal h4 with
              | some a, some b, some c1, some d =>
                some (Char.ofNat (((a * 16 + b) * 16 + c1) * 16 + d), rest3)
              | _, _, _, _ => Option.none
            | _ => Option.none
          else Option.none
        match esc with
        | Option.none => Option.none
        | some (ch, rest3) => (parseStrBody fuel rest3).map (fun p => (ch :: p.1, p.2))
    else if c.toNat < 32 then Option.none
    else (parseStrBody fuel rest).map (fun p => (c :: p.1, p.2))

/-- Fold decimal digits into a natural number. -/
def digitsToNat (l : List Char) : Nat :=
  l.foldl (fun acc c => acc * 10 + (c.toNat - 48)) 0

/-- Parse a JSON integer literal: optional minus sign, then digits with no
redundant leading zero; a following fraction or exponent (a float) is
outside the model. -/
def parseIntLit (l : List Char) : Option (Int × List Char) :=
  let (neg, l1) : Bool × List Char :=
    match l with
    | '-' :: t => (true, t)
    | _ => (false, l)
  match l1 with
  | [] => Option.none
  | c :: t =>
    if ¬c.isDigit then Option.none
    else
      let (ds, l2) : List Char × List Char :=
        if c = '0' then ([c], t)
        else (l1.takeWhile Char.isDigit, l1.dropWhile Char.isDigit)
      match l2 with
      | '.' :: _ => Option.none
      | 'e' :: _ => Option.none
      | 'E' :: _ => Option.none
      | _ =>
        let n : Int := Int.ofNat (digitsToNat ds)
        some (if neg then -n else n, l2)

mutual

/-- Parse one JSON value.  Fuel decreases on every recursive call; the
caller supplies enough fuel for the whole input. -/
def parseVal : Nat → List Char → Option (PyVal × List Char)
  | 0, _ => Option.none
  | _ + 1, [] => Option.none
  | fuel + 1, c :: rest =>
    if c = 'n' then
      match rest with
      | 'u' :: 'l' :: 'l' :: r => some (.none, r)
      | _ => Option.none
    else if c = 't' then
      match rest with
      | 'r' :: 'u' :: 'e' :: r => some (.bool true, r)
      | _ => Option.none
    else if c = 'f' then
      match rest with
      | 'a' :: 'l' :: 's' :: 'e' :: r => some (.bool false, r)
      | _ => Option.none
    else if c = '"' then
      (parseStrBody (rest.length + 1) rest).map (fun p => (.str (String.mk p.1), p.2))
    else if c = '[' then
      match skipWs rest with
      | ']' :: r => some (.list [], r)
      | l1 => (parseElems fuel l1).map (fun p => (.list p.1, p.2))
    else if c = leftBrace then
      match skipWs rest with
      | b :: r =>
        if b = rightBrace then some (.dict [], r)
        else (parseMembers fuel (b :: r)).map (fun p => (.dict p.1, p.2))
      | [] => Option.none
    else
      (parseIntLit (c :: rest)).map (fun p => (.int p.1, p.2))

/-- Parse the non-empty element list of a JSON array, up to and including
the closing bracket. -/
def parseElems : Nat → List Char → Option (List PyVal × List Char)
  | 0, _ => Option.none
  | fuel + 1, l =>
    match parseVal fuel l with
    | Option.none => Option.none
    | some (v, r) =>
      match skipWs r with
      | ',' :: r2 => (parseElems fuel (skipWs r2)).map (fun p => (v :: p.1, p.2))
      | ']' :: r2 => some ([v], r2)
      | _ => Option.none

/-- Parse the non-empty member list of a JSON object, up to and including
the closing brace. -/
def parseMembers : Nat → List Char → Option (List (String × PyVal) × List Char)
  | 0, _ => Option.none
  | fuel + 1, l =>
    match l with
    | '"' :: r =>
      match parseStrBody (r.length + 1) r with
      | Option.none => Option.none
      | some (k, r2) =>
        match skipWs r2 with
        | ':' :: r3 =>
          match parseVal fuel (skipWs r3) with
          | Option.none => Option.none
          | some (v, r4) =>
            match skipWs r4 with
            | ',' :: r5 =>
              match skipWs r5 with
              | '"' :: _ =>
                (parseMembers fuel (skipWs r5)).map
                  (fun p => ((String.mk k, v) :: p.1, p.2))
              | _ => Option.none
            | b :: r5 =>
              if b = rightBrace then some ([(String.mk k, v)], r5)
              else Option.none
            | [] => Option.none
        | _ => Option.none
    | _ => Option.none

end

/-- Model of `json.loads`: parse one value surrounded by optional
whitespace; trailing garbage is an error, any failure is `Option.none`
(standing for a raised `JSONDecodeError`). -/
def jsonLoads (s : String) : Option PyVal :=
  match parseVal (2 * s.data.length + 2) (skipWs s.data) with
  | some (v, rest) => if skipWs rest = [] then some v else Option.none
  | Option.none => Option.none

/-- Lowercase hexadecimal digit character of a value below 16. -/
def natToHexChar (n : Nat) : Char :=
  if n < 10 then Char.ofNat (48 + n) else Char.ofNat (87 + n)

/-- Four lowercase hexadecimal digits of a value below 65536. -/
def hex4 (n : Nat) : List Char :=
  [natToHexChar (n / 4096 % 16), natToHexChar (n / 256 % 16),
   natToHexChar (n / 16 % 16), natToHexChar (n % 16)]

/-- Model of the character escaping of `json.dumps` with the default
`ensure_ascii=True`: quote and backslash are escaped, the common control
characters get their short escapes, every other character outside the
printable ASCII range is written as `\uXXXX` (as a surrogate pair beyond
the basic multilingual plane). -/
def encodeJsonChar (c : Char) : List Char :=
  if c = '"' then ['\\', '"']
  else if c = '\\' then ['\\', '\\']
  else if c = Char.ofNat 8 then ['\\', 'b']
  else if c = '\t' then ['\\', 't']
  else if c = '\n' then ['\\', 'n']
  else if c = Char.ofNat 12 then ['\\', 'f']
  else if c = '\r' then ['\\', 'r']
  else if 32 ≤ c.toNat ∧ c.toNat ≤ 126 then [c]
  else if c.toNat < 65536 then '\\' :: 'u' :: hex4 c.toNat
  else
    ('\\' :: 'u' :: hex4 ((c.toNat - 65536) / 1024 + 55296)) ++
    ('\\' :: 'u' :: hex4 ((c.toNat - 65536) % 1024 + 56320))

/-- Model of the string serialization of `json.dumps`. -/
def encodeJsonString (s : String) : String :=
  String.mk ('"' :: (s.data.map encodeJsonChar).flatten ++ ['"'])

mutual

/-- Model of `json.dumps` with default arguments: `Option.none` stands for
a raised `TypeError` on a value without a JSON representation.  The default
separators put `", "` between items and `": "` after keys. -/
def pyJsonDumps : PyVal → Option String
  | .none => some "null"
  | .bool b => some (if b then "true" else "false")
  | .int n => some (toString n)
  | .str s => some (encodeJsonString s)
  | .list xs =>
    (dumpsList xs).map (fun ss => "[" ++ String.intercalate ", " ss ++ "]")
  | .dict es =>
    (dumpsEntries es).map (fun ss =>
      String.mk (leftBrace :: (String.intercalate ", " ss).data ++ [rightBrace]))
  | .obj => Option.none

/-- Serialize the items of a list, failing if any item fails. -/
def dumpsList : List PyVal → Option (List String)
  | [] => some []
  | v :: rest =>
    match pyJsonDumps v, dumpsList rest with
    | some s, some ss => some (s :: ss)
    | _, _ => Option.none

/-- Serialize the `"key": value` members of a dictionary, failing if any
value fails. -/
def dumpsEntries : List (String × PyVal) → Option (List String)
  | [] => some []
  | (k, v) :: rest =>
    match pyJsonDumps v, dumpsEntries rest with
    | some s, some ss => some ((encodeJsonString k ++ ": " ++ s) :: ss)
    | _, _ => Option.none

end

/-- Embedding of `safe_json_dumps` (misc.py lines 144-164): when `default`
is `None` it becomes the literal string of an empty JSON object; the output
is that default unless `json.dumps` succeeds. -/
def safe_json_dumps (data : PyVal) (default : Option String) : String :=
  let d := default.getD "\x7b\x7d"
  match pyJsonDumps data with
  | some s => s
  | Option.none => d

/-- Does the string start with a left curly or a left square bracket?  This
models the `result.startswith` tests of `safe_json_loads`. -/
def startsBraceOrBracket (s : String) : Bool :=
  match s.data with
  | [] => false
  | c :: _ => c = leftBrace || c = '['

/-- Embedding of `safe_json_loads` (misc.py lines 166-206): `None` maps to
the default, dictionaries and lists pass through unparsed, non-strings map
to the default, strings are parsed with `json.loads` (failure gives the
default); with `attempt_double_decode`, a string result that looks like
JSON is parsed a second time, a second-parse failure falling back to the
first result. -/
def safe_json_loads (data : PyVal) (default : PyVal)
    (attempt_double_decode : Bool) : PyVal :=
  match data with
  | .none => default
  | .dict es => .dict es
  | .list xs => .list xs
  | .str s =>
    (match jsonLoads s with
     | Option.none => default
     | some result =>
       if attempt_double_decode then
         match result with
         | .str inner =>
           if startsBraceOrBracket inner then
             match jsonLoads inner with
             | some second => second
             | Option.none => .str inner
           else .str inner
         | other => other
       else result)
  | _ => default

/-! ### Model of the Python `uuid.UUID` constructor

`UUID(hex, version=v)` normalizes the string (removing every occurrence of
`urn:` and then of `uuid:`, stripping curly braces from both ends, removing
hyphens), requires exactly 32 hexadecimal digits, reads them as a 128-bit
integer, and — because a version is given — overwrites the variant bits
with the RFC 4122 pattern and the version nibble with `v` (valid versions
are 1 to 5).  `str(uuid)` is the canonical form: 32 lowercase hexadecimal
digits with hyphens after digits 8, 12, 16 and 20.  Python reads the digits
with `int(hex, 16)`, which additionally tolerates a sign, an `0x` prefix,
underscores and surrounding whitespace; such inputs are modelled as parse
failures, which does not change `get_uuid_version` or `is_valid_uuid`:
those lax forms contain a character that can never occur in the canonical
string, so they are rejected by the round-trip equality check exactly as a
parse failure is. -/

/-- Replace every (left-to-right, non-overlapping) occurrence of `pat` by
`rep`, as Python `str.replace` does for a non-empty pattern.  Fuel is at
least the length of the list. -/
def replaceFuel : Nat → List Char → List Char → List Char → List Char
  | 0, l, _, _ => l
  | _ + 1, [], _, _ => []
  | fuel + 1, c :: rest, pat, rep =>
    if pat.isPrefixOf (c :: rest) then
      rep ++ replaceFuel fuel ((c :: rest).drop pat.length) pat rep
    else
      c :: replaceFuel fuel rest pat rep

/-- Model of Python `str.replace` for a non-empty pattern. -/
def pyReplace (s pat rep : String) : String :=
  String.mk (replaceFuel (s.data.length + 1) s.data pat.data rep.data)

/-- Is the character a curly brace? -/
def isBraceChar (c : Char) : Bool := c = leftBrace || c = rightBrace

/-- Model of Python `str.strip` with the two curly braces as the character
set: both ends are trimmed of any run of braces. -/
def stripBraces (s : String) : String :=
  String.mk (((s.data.dropWhile isBraceChar).reverse.dropWhile isBraceChar).reverse)

/-- Read a list of hexadecimal digits (either case) as a natural number;
any other character is a failure. -/
def hexToNat? (l : List Char) : Nat → Option Nat
  | acc =>
    match l with
    | [] => some acc
    | c :: rest =>
      match hexDigitVal c with
      | some d => hexToNat? rest (acc * 16 + d)
      | Option.none => Option.none

/-- The 128-bit complement of the variant mask `0xc000 << 48`; `n &&&` this
value implements `n &= ~(0xc000 << 48)` for `n < 2^128`. -/
def UUID_CLEAR_VARIANT : Nat := 2 ^ 128 - 1 - (0xc000 <<< 48)

/-- The 128-bit complement of the version mask `0xf000 << 64`; `n &&&` this
value implements `n &= ~(0xf000 << 64)` for `n < 2^128`. -/
def UUID_CLEAR_VERSION : Nat := 2 ^ 128 - 1 - (0xf000 <<< 64)

/-- The variant and version overwriting performed by the `UUID` constructor
when a version argument is given. -/
def setVariantVersion (n : Nat) (version : Nat) : Nat :=
  let n1 := (n &&& UUID_CLEAR_VARIANT) ||| (0x8000 <<< 48)
  (n1 &&& UUID_CLEAR_VERSION) ||| (version <<< 76)

/-- Model of `uuid.UUID(hex, version=version)`: `Option.none` stands for a
raised `ValueError`, `some n` for the constructed value with 128-bit
integer `n`. -/
def pyUUID (hex : String) (version : Nat) : Option Nat :=
  let h := pyReplace (pyReplace hex "urn:" "") "uuid:" ""
  let h := pyReplace (stripBraces h) "-" ""
  if h.data.length = 32 then
    match hexToNat? h.data 0 with
    | some n =>
      if 1 ≤ version ∧ version ≤ 5 then some (setVariantVersion n version)
      else Option.none
    | Option.none => Option.none
  else Option.none

/-- The 32 lowercase hexadecimal digits of a 128-bit integer, most
significant first (`'%032x' % n`). -/
def natToHex32 (n : Nat) : List Char :=
  (List.range 32).map (fun i => natToHexChar (n / 16 ^ (31 - i) % 16))

/-- Model of `str(uuid)`: the canonical hyphenated lowercase form. -/
def uuidStr (n : Nat) : String :=
  let h := natToHex32 n
  String.mk (h.take 8 ++ '-' :: (h.drop 8).take 4 ++ '-' :: (h.drop 12).take 4 ++
    '-' :: (h.drop 16).take 4 ++ '-' :: h.drop 20)

/-- The UUID versions the module probes, in their fixed order
(misc.py line 93). -/
def SUPPORTED_UUID_VERSIONS : List Nat := [1, 3, 4, 5]

/-- One probe of the loop of `get_uuid_version`: construction constrained
to `version` succeeds and the canonical string form equals the input. -/
def uuidVersionMatches (id : String) (version : Nat) : Bool :=
  match pyUUID id version with
  | some n => uuidStr n == id
  | Option.none => false

/-- The loop of `get_uuid_version` over the remaining versions to probe. -/
def uuidVersionScan (id : String) : List Nat → Option Nat
  | [] => Option.none
  | v :: rest =>
    if uuidVersionMatches id v then some v else uuidVersionScan id rest

/-- Embedding of `get_uuid_version` (misc.py lines 97-108). -/
def get_uuid_version (id : String) : Option Nat :=
  uuidVersionScan id SUPPORTED_UUID_VERSIONS

/-- Embedding of `is_valid_uuid` (misc.py lines 111-141).  The candidate is
`Option String` so that Python `None` (falsy, like the empty string) is
representable. -/
def is_valid_uuid (uuid_to_test : Option String) (version : Option Nat) : Bool :=
  match uuid_to_test with
  | Option.none => false
  | some s =>
    if s = "" then false
    else
      match version with
      | Option.none => (get_uuid_version s).isSome
      | some v =>
        match pyUUID s v with
        | Option.none => false
        | some n => uuidStr n == s

theorem uuidVersionScan_eq_find (id : String) (l : List Nat) :
    uuidVersionScan id l = l.find? (uuidVersionMatches id) := by
  induction l with
  | nil => rfl
  | cons v rest ih =>
    rw [uuidVersionScan, List.find?]
    cases h : uuidVersionMatches id v <;> simp [h, ih]

end HikmaMisc

/-- C10: `to_snake_case` is idempotent: its output contains no uppercase
character, so a second pass inserts no underscore and lower-casing is the
identity on it. -/
theorem C10_to_snake_case_idempotent (s : String) :
    HikmaMisc.to_snake_case (HikmaMisc.to_snake_case s) = HikmaMisc.to_snake_case s :=
  HikmaMisc.to_snake_case_fixed _ (HikmaMisc.to_snake_case_chars s)

/-- C3: `convert_dict_keys_to_snake_case` returns non-mapping input
unchanged (including lists, whose nested dictionaries are not transformed)
and rebuilds mappings with snake-cased keys and recursively converted
values; the listed examples hold. -/
theorem C3_convert_dict_keys_spec :
    (∀ es, HikmaMisc.convert_dict_keys_to_snake_case (.dict es) =
      .dict (es.map (fun kv =>
        (HikmaMisc.to_snake_case kv.1, HikmaMisc.convert_dict_keys_to_snake_case kv.2)))) ∧
    HikmaMisc.convert_dict_keys_to_snake_case .none = .none ∧
    (∀ b, HikmaMisc.convert_dict_keys_to_snake_case (.bool b) = .bool b) ∧
    (∀ n, HikmaMisc.convert_dict_keys_to_snake_case (.int n) = .int n) ∧
    (∀ s, HikmaMisc.convert_dict_keys_to_snake_case (.str s) = .str s) ∧
    (∀ xs, HikmaMisc.convert_dict_keys_to_snake_case (.list xs) = .list xs) ∧
    HikmaMisc.convert_dict_keys_to_snake_case .obj = .obj ∧
    HikmaMisc.convert_dict_keys_to_snake_case
        (.dict [("firstName", .str "John"), ("lastName", .dict [("innerValue", .int 1)])]) =
      .dict [("first_name", .str "John"), ("last_name", .dict [("inner_value", .int 1)])] ∧
    HikmaMisc.convert_dict_keys_to_snake_case (.list [.int 1, .int 2]) =
      .list [.int 1, .int 2] := by
  refine ⟨HikmaMisc.conv_dict_eq_map, rfl, fun b => rfl, fun n => rfl, fun s => rfl,
    fun xs => rfl, rfl, rfl, rfl⟩

/-- C8: `convert_operator` maps each frontend operator to its SQL form,
comparison operators pass through unchanged, and unknown operators fall
back to `ILIKE` (case-insensitive) or `=` (case-sensitive). -/
theorem C8_convert_operator_spec :
    (∀ ci, HikmaMisc.convert_operator "contains" ci = if ci then "ILIKE" else "LIKE") ∧
    (∀ ci, HikmaMisc.convert_operator "does not contain" ci =
      if ci then "NOT ILIKE" else "NOT LIKE") ∧
    (∀ ci, HikmaMisc.convert_operator "is empty" ci = "IS NULL") ∧
    (∀ ci, HikmaMisc.convert_operator "is not empty" ci = "IS NOT NULL") ∧
    (∀ ci op, op ∈ ["=", "!=", "<", ">", "<=", ">="] →
      HikmaMisc.convert_operator op ci = op) ∧
    (∀ ci op, op ∉ ["contains", "does not contain", "is empty", "is not empty",
        "=", "!=", "<", ">", "<=", ">="] →
      HikmaMisc.convert_operator op ci = if ci then "ILIKE" else "=") := by
  refine ⟨fun ci => by cases ci <;> rfl, fun ci => by cases ci <;> rfl,
    fun ci => by cases ci <;> rfl, fun ci => by cases ci <;> rfl, ?_, ?_⟩
  · intro ci op hop
    simp only [List.mem_cons, List.not_mem_nil, or_false] at hop
    rcases hop with h | h | h | h | h | h <;> subst h <;> cases ci <;> rfl
  · intro ci op hop
    simp only [List.mem_cons, List.not_mem_nil, or_false, not_or] at hop
    obtain ⟨h1, h2, h3, h4, h5, h6, h7, h8, h9, h10⟩ := hop
    simp [HikmaMisc.convert_operator, HikmaMisc.operator_map, List.lookup,
      beq_eq_false_iff_ne.mpr h1, beq_eq_false_iff_ne.mpr h2,
      beq_eq_false_iff_ne.mpr h3, beq_eq_false_iff_ne.mpr h4,
      beq_eq_false_iff_ne.mpr h5, beq_eq_false_iff_ne.mpr h6,
      beq_eq_false_iff_ne.mpr h7, beq_eq_false_iff_ne.mpr h8,
      beq_eq_false_iff_ne.mpr h9, beq_eq_false_iff_ne.mpr h10]

/-- C8 witness: the theorem applied at concrete inputs, in particular the
unknown operator clause at the string of the example. -/
theorem C8_convert_operator_witness :
    HikmaMisc.convert_operator "contains" true = "ILIKE" ∧
    HikmaMisc.convert_operator "contains" false = "LIKE" ∧
    HikmaMisc.convert_operator "is empty" true = "IS NULL" ∧
    HikmaMisc.convert_operator "=" true = "=" ∧
    HikmaMisc.convert_operator "unknown_op" true = "ILIKE" :=
  ⟨C8_convert_operator_spec.1 true, C8_convert_operator_spec.1 false,
    C8_convert_operator_spec.2.2.1 true,
    C8_convert_operator_spec.2.2.2.2.1 true "=" (by decide),
    C8_convert_operator_spec.2.2.2.2.2 true "unknown_op" (by decide)⟩

/-- C9: the case converter, the operator translator and the recursive key
converter are total: they return a result on every input, the recursion of
`convert_dict_keys_to_snake_case` satisfies its defining equation (each
recursive call descending into a strictly smaller value), and unexpected
input is handled by identity-like defaults. -/
theorem C9_total_functions :
    (∀ s, ∃ r, HikmaMisc.to_snake_case s = r) ∧
    (∀ op ci, ∃ r, HikmaMisc.convert_operator op ci = r) ∧
    (∀ v, ∃ r, HikmaMisc.convert_dict_keys_to_snake_case v = r) ∧
    (∀ es, HikmaMisc.convert_dict_keys_to_snake_case (.dict es) =
      .dict (es.map (fun kv =>
        (HikmaMisc.to_snake_case kv.1, HikmaMisc.convert_dict_keys_to_snake_case kv.2)))) ∧
    HikmaMisc.to_snake_case "" = "" ∧
    HikmaMisc.convert_operator "unknown_op" true = "ILIKE" ∧
    HikmaMisc.convert_operator "unknown_op" false = "=" :=
  ⟨fun s => ⟨_, rfl⟩, fun op ci => ⟨_, rfl⟩, fun v => ⟨_, rfl⟩,
    HikmaMisc.conv_dict_eq_map, rfl, rfl, rfl⟩

/-- C4: `safe_json_loads` returns the default for `None`, passes mappings
and sequences through unparsed, returns the default for any other
non-string, and parses strings, with the default on top-level parse
failure. -/
theorem C4_safe_json_loads_spec :
    (∀ default add, HikmaMisc.safe_json_loads .none default add = default) ∧
    (∀ es default add, HikmaMisc.safe_json_loads (.dict es) default add = .dict es) ∧
    (∀ xs default add, HikmaMisc.safe_json_loads (.list xs) default add = .list xs) ∧
    (∀ b default add, HikmaMisc.safe_json_loads (.bool b) default add = default) ∧
    (∀ n default add, HikmaMisc.safe_json_loads (.int n) default add = default) ∧
    (∀ default add, HikmaMisc.safe_json_loads .obj default add = default) ∧
    (∀ s default add, HikmaMisc.jsonLoads s = Option.none →
      HikmaMisc.safe_json_loads (.str s) default add = default) ∧
    (∀ s v default, HikmaMisc.jsonLoads s = some v →
      HikmaMisc.safe_json_loads (.str s) default false = v) := by
  refine ⟨fun _ _ => rfl, fun _ _ _ => rfl, fun _ _ _ => rfl, fun _ _ _ => rfl,
    fun _ _ _ => rfl, fun _ _ => rfl, ?_, ?_⟩
  · intro s default add h
    simp [HikmaMisc.safe_json_loads, h]
  · intro s v default h
    simp [HikmaMisc.safe_json_loads, h]

/-- C4 witness: the theorem applied at concrete inputs, with the parse
hypotheses evaluated. -/
theorem C4_safe_json_loads_witness :
    HikmaMisc.safe_json_loads .none (.int 7) false = .int 7 ∧
    HikmaMisc.safe_json_loads (.list [.int 1, .int 2]) (.int 7) false =
      .list [.int 1, .int 2] ∧
    HikmaMisc.safe_json_loads (.str "nope") (.int 7) true = .int 7 ∧
    HikmaMisc.safe_json_loads (.str "[1, 2]") (.int 7) false = .list [.int 1, .int 2] :=
  ⟨C4_safe_json_loads_spec.1 (.int 7) false,
    C4_safe_json_loads_spec.2.2.1 [.int 1, .int 2] (.int 7) false,
    C4_safe_json_loads_spec.2.2.2.2.2.2.1 "nope" (.int 7) true rfl,
    C4_safe_json_loads_spec.2.2.2.2.2.2.2 "[1, 2]" (.list [.int 1, .int 2]) (.int 7) rfl⟩

/-- C5: with `attempt_double_decode` set, a first-parse result that is a
string starting with a curly or square bracket is parsed again; a failing
second parse falls back to the first result, a string not starting with a
bracket (or a non-string result) is returned as is, and the double-encoded
example decodes to the object. -/
theorem C5_safe_json_loads_double_decode :
    (∀ s inner default, HikmaMisc.jsonLoads s = some (.str inner) →
      (HikmaMisc.startsBraceOrBracket inner = true →
        (∀ v, HikmaMisc.jsonLoads inner = some v →
          HikmaMisc.safe_json_loads (.str s) default true = v) ∧
        (HikmaMisc.jsonLoads inner = Option.none →
          HikmaMisc.safe_json_loads (.str s) default true = .str inner)) ∧
      (HikmaMisc.startsBraceOrBracket inner = false →
        HikmaMisc.safe_json_loads (.str s) default true = .str inner)) ∧
    (∀ s v default, HikmaMisc.jsonLoads s = some v → (∀ inner, v ≠ .str inner) →
      HikmaMisc.safe_json_loads (.str s) default true = v) ∧
    HikmaMisc.safe_json_loads (.str "\"\x7b\\\"a\\\":1\x7d\"") .none true =
      .dict [("a", .int 1)] := by
  refine ⟨?_, ?_, rfl⟩
  · intro s inner default h
    refine ⟨fun hstart => ⟨fun v hv => ?_, fun hv => ?_⟩, fun hstart => ?_⟩
    · simp [HikmaMisc.safe_json_loads, h, hstart, hv]
    · simp [HikmaMisc.safe_json_loads, h, hstart, hv]
    · simp [HikmaMisc.safe_json_loads, h, hstart]
  · intro s v default h hne
    cases v <;> simp [HikmaMisc.safe_json_loads, h]
    exact absurd rfl (hne _)

/-- C5 witness: the theorem applied to the double-encoded payload, to a
bracket-free string result, and to a non-string result. -/
theorem C5_safe_json_loads_double_decode_witness :
    HikmaMisc.safe_json_loads (.str "\"\x7b\\\"a\\\":1\x7d\"") .none true =
      .dict [("a", .int 1)] ∧
    HikmaMisc.safe_json_loads (.str "\"hello\"") .none true = .str "hello" ∧
    HikmaMisc.safe_json_loads (.str "5") .none true = .int 5 :=
  ⟨((C5_safe_json_loads_double_decode.1 "\"\x7b\\\"a\\\":1\x7d\"" "\x7b\"a\":1\x7d"
      .none rfl).1 rfl).1 (.dict [("a", .int 1)]) rfl,
    (C5_safe_json_loads_double_decode.1 "\"hello\"" "hello" .none rfl).2 rfl,
    C5_safe_json_loads_double_decode.2.1 "5" (.int 5) .none rfl
      (fun inner h => HikmaMisc.PyVal.noConfusion h)⟩

/-- C6: `safe_json_dumps` returns the JSON serialization on success and the
supplied default (the empty-object literal when none is supplied) on
serialization failure; the serialized example round-trips through the JSON
parser. -/
theorem C6_safe_json_dumps_spec :
    (∀ data default s, HikmaMisc.pyJsonDumps data = some s →
      HikmaMisc.safe_json_dumps data default = s) ∧
    (∀ data default, HikmaMisc.pyJsonDumps data = Option.none →
      HikmaMisc.safe_json_dumps data default = default.getD "\x7b\x7d") ∧
    HikmaMisc.safe_json_dumps (.dict [("a", .int 1)]) Option.none = "\x7b\"a\": 1\x7d" ∧
    HikmaMisc.jsonLoads "\x7b\"a\": 1\x7d" = some (.dict [("a", .int 1)]) ∧
    HikmaMisc.safe_json_dumps .obj (some "[]") = "[]" ∧
    HikmaMisc.safe_json_dumps .obj Option.none = "\x7b\x7d" := by
  refine ⟨?_, ?_, rfl, rfl, rfl, rfl⟩
  · intro data default s h
    simp [HikmaMisc.safe_json_dumps, h]
  · intro data default h
    simp [HikmaMisc.safe_json_dumps, h]

/-- C6 witness: the theorem applied at concrete inputs, with the
serialization hypotheses evaluated. -/
theorem C6_safe_json_dumps_witness :
    HikmaMisc.safe_json_dumps (.list [.int 1]) (some "x") = "[1]" ∧
    HikmaMisc.safe_json_dumps .obj (some "[]") = "[]" :=
  ⟨C6_safe_json_dumps_spec.1 (.list [.int 1]) (some "x") "[1]" rfl,
    C6_safe_json_dumps_spec.2.1 .obj (some "[]") rfl⟩

/-- C2: `get_uuid_version` returns the first version among 1, 3, 4, 5 (in
that fixed order) for which construction constrained to that version
succeeds and the canonical string equals the input, else `None`; on the
canonical version-4 example the probes for versions 1 and 3 construct a
value but are rejected by the canonical-string equality check, and a
non-UUID string gives `None`. -/
theorem C2_get_uuid_version_spec :
    (∀ id, HikmaMisc.get_uuid_version id =
      HikmaMisc.SUPPORTED_UUID_VERSIONS.find? (HikmaMisc.uuidVersionMatches id)) ∧
    HikmaMisc.get_uuid_version "c9bf9e57-1685-4c89-bafb-ff5af830be8a" = some 4 ∧
    (HikmaMisc.pyUUID "c9bf9e57-1685-4c89-bafb-ff5af830be8a" 1).isSome = true ∧
    HikmaMisc.uuidVersionMatches "c9bf9e57-1685-4c89-bafb-ff5af830be8a" 1 = false ∧
    (HikmaMisc.pyUUID "c9bf9e57-1685-4c89-bafb-ff5af830be8a" 3).isSome = true ∧
    HikmaMisc.uuidVersionMatches "c9bf9e57-1685-4c89-bafb-ff5af830be8a" 3 = false ∧
    HikmaMisc.get_uuid_version "not-a-uuid" = Option.none :=
  ⟨fun id => HikmaMisc.uuidVersionScan_eq_find id _, by decide, by decide,
    by decide, by decide, by decide, by decide⟩

/-- C7: `is_valid_uuid` is false on falsy input, delegates to
`get_uuid_version` when no version is given, and with a version checks
construction plus round-trip equality against that version only; the listed
examples hold. -/
theorem C7_is_valid_uuid_spec :
    (∀ ver, HikmaMisc.is_valid_uuid Option.none ver = false) ∧
    (∀ ver, HikmaMisc.is_valid_uuid (some "") ver = false) ∧
    (∀ s, s ≠ "" → (HikmaMisc.is_valid_uuid (some s) Option.none = true ↔
      (HikmaMisc.get_uuid_version s).isSome = true)) ∧
    (∀ s v, s ≠ "" → (HikmaMisc.is_valid_uuid (some s) (some v) = true ↔
      ∃ n, HikmaMisc.pyUUID s v = some n ∧ HikmaMisc.uuidStr n = s)) ∧
    HikmaMisc.is_valid_uuid (some "c9bf9e57-1685-4c89-bafb-ff5af830be8a")
      Option.none = true ∧
    HikmaMisc.is_valid_uuid (some "c9bf9e58") Option.none = false := by
  refine ⟨fun ver => rfl, fun ver => rfl, ?_, ?_, by decide, by decide⟩
  · intro s hs
    rw [HikmaMisc.is_valid_uuid, if_neg hs]
  · intro s v hs
    rw [HikmaMisc.is_valid_uuid, if_neg hs]
    cases h : HikmaMisc.pyUUID s v with
    | none => simp
    | some n => simp [beq_iff_eq]

/-- C7 witness: the theorem applied to the valid version-4 example, with
and without an explicit version argument. -/
theorem C7_is_valid_uuid_witness :
    HikmaMisc.is_valid_uuid (some "c9bf9e57-1685-4c89-bafb-ff5af830be8a")
      Option.none = true ∧
    (∃ n, HikmaMisc.pyUUID "c9bf9e57-1685-4c89-bafb-ff5af830be8a" 4 = some n ∧
      HikmaMisc.uuidStr n = "c9bf9e57-1685-4c89-bafb-ff5af830be8a") :=
  ⟨(C7_is_valid_uuid_spec.2.2.1 "c9bf9e57-1685-4c89-bafb-ff5af830be8a"
      (by decide)).mpr (by decide),
    (C7_is_valid_uuid_spec.2.2.2.1 "c9bf9e57-1685-4c89-bafb-ff5af830be8a" 4
      (by decide)).mp (by decide)⟩

/-- C1: `to_snake_case` equals the single left-to-right scan described by
the specification, and satisfies the listed examples. -/
theorem C1_to_snake_case_spec :
    (∀ s : String, HikmaMisc.to_snake_case s = HikmaMisc.spec_to_snake_case s) ∧
    HikmaMisc.to_snake_case "camelCase" = "camel_case" ∧
    HikmaMisc.to_snake_case "PascalCase" = "pascal_case" ∧
    HikmaMisc.to_snake_case "ABC" = "abc" ∧
    HikmaMisc.to_snake_case "XMLHttpRequest" = "xml_http_request" ∧
    HikmaMisc.to_snake_case "" = "" := by
  refine ⟨?_, by decide, by decide, by decide, by decide, by decide⟩
  intro s
  unfold HikmaMisc.to_snake_case HikmaMisc.spec_to_snake_case
  cases s.data with
  | nil => rfl
  | cons c rest =>
    have h := HikmaMisc.snakeLoop_eq_spec rest [c.toLower] c
    simp at h
    simp [h]
